import Mathlib

/-!
Verification of the fridge-inventory application.

The definitions below are a shallow embedding of the TypeScript source:
`src/types.ts` (data model), `src/App.tsx` (store operations, duplicate
matcher, recipe derivation, persistence effects) and
`src/components/Camera.tsx` (capture overlay lifecycle).  Date-library
calls (`differenceInDays`, `parseISO`, `addDays`) and id generation
(`uuidv4`) are abstracted as function parameters; machine `number`s that
hold day counts and percentages are modelled as `Int`.
-/

namespace Fridge
/-- The closed category enum from `src/types.ts`. -/
inductive Category where
  | vegetable
  | fruit
  | meat
  | dairy
  | drink
  | snack
  | condiment
  | other
deriving DecidableEq, Repr

/-- The string value of each enum member, as declared in `src/types.ts`. -/
def Category.enumValue : Category → String
  | .vegetable => "Vegetable"
  | .fruit => "Fruit"
  | .meat => "Meat"
  | .dairy => "Dairy"
  | .drink => "Drink"
  | .snack => "Snack"
  | .condiment => "Condiment"
  | .other => "Other"

/-- Inverse of `Category.enumValue`, used when decoding persisted JSON. -/
def Category.ofEnumValue (s : String) : Option Category :=
  if s = "Vegetable" then some .vegetable
  else if s = "Fruit" then some .fruit
  else if s = "Meat" then some .meat
  else if s = "Dairy" then some .dairy
  else if s = "Drink" then some .drink
  else if s = "Snack" then some .snack
  else if s = "Condiment" then some .condiment
  else if s = "Other" then some .other
  else none

/-- Function `getCategoryEmoji` from `src/components/CategoryIcon.tsx`. -/
def getCategoryEmoji : Category → String
  | .vegetable => "🥦"
  | .fruit => "🍎"
  | .meat => "🥩"
  | .dairy => "🧀"
  | .drink => "🥤"
  | .snack => "🥨"
  | .condiment => "🥫"
  | .other => "📦"

/-- Structure `FoodItem` from `src/types.ts`.  Optional TS fields become `Option`;
`remainingPercentage : number` becomes `Int`. -/
structure FoodItem where
  id : String
  name : String
  nameEn : Option String
  nameZh : Option String
  category : Category
  productionDate : Option String
  purchaseDate : String
  expiryDate : Option String
  weight : Option String
  remainingPercentage : Int
  emoji : String
deriving DecidableEq, Repr

/-- JavaScript `toLowerCase` on one character, restricted to ASCII
(the only characters the app lowercases that change; CJK characters are
fixed points in both semantics). -/
def jsCharToLower (c : Char) : Char :=
  if 'A' ≤ c ∧ c ≤ 'Z' then Char.ofNat (c.toNat + 32) else c

/-- JavaScript `String.prototype.toLowerCase`. -/
def jsToLower (s : String) : String :=
  ⟨s.data.map jsCharToLower⟩

/-- JavaScript `hay.includes(needle)`: substring containment. -/
def jsIncludes (hay needle : String) : Bool :=
  decide (needle.data <:+: hay.data)

/-- JavaScript truthiness of an optional string: `undefined` and the
empty string are falsy. -/
def jsTruthy : Option String → Bool
  | none => false
  | some s => !(s = "")

/-- JavaScript `a || b` on an optional string with a string default,
as in `stagedItem.purchaseDate || today` (empty string falls through). -/
def jsOrStr (a : Option String) (b : String) : String :=
  match a with
  | none => b
  | some s => if s = "" then b else s

/-- One disjunct of the duplicate matcher:
`item.nameEn && item.nameEn.toLowerCase().includes(scanned)`
(`src/App.tsx`, `handleCapture`, shop branch). -/
def nameFieldHit (field : Option String) (scannedLower : String) : Bool :=
  match field with
  | none => false
  | some n => !(n = "") && jsIncludes (jsToLower n) scannedLower

/-- The duplicate matcher from `handleCapture` (shop mode) in
`src/App.tsx`: the scanned names are lowercased once, then
`items.find` looks for the first item one of whose populated name
fields contains the scanned name. -/
def findDuplicate (items : List FoodItem) (scanEn scanZh : String) :
    Option FoodItem :=
  let scannedEn := jsToLower scanEn
  let scannedZh := jsToLower scanZh
  items.find? (fun item =>
    nameFieldHit item.nameEn scannedEn ||
    nameFieldHit item.nameZh scannedZh ||
    jsIncludes (jsToLower item.name) scannedEn)

/-- A concrete inventory item named Milk, used as counterexample input. -/
def milkItem : FoodItem :=
  { id := "item-1"
    name := "Milk"
    nameEn := some "Milk"
    nameZh := none
    category := .dairy
    productionDate := none
    purchaseDate := "2026-10-01"
    expiryDate := none
    weight := none
    remainingPercentage := 100
    emoji := "🧀" }

/-- JSON value trees, the image of `JSON.stringify`/`JSON.parse` on the
data this app persists (the string layer of the platform JSON codec is
not re-modelled; `stringify` and `parse` are inverse on trees). -/
inductive Json where
  | str : String → Json
  | num : Int → Json
  | arr : List Json → Json
  | obj : List (String × Json) → Json

/-- Property access on a parsed JSON object: first binding of the key. -/
def Json.getField : Json → String → Option Json
  | .obj kvs, k => (kvs.find? (fun kv => kv.1 == k)).map (fun kv => kv.2)
  | _, _ => none

/-- Read a JSON value as a string. -/
def Json.asStr : Json → Option String
  | .str s => some s
  | _ => none

/-- Read a JSON value as a number. -/
def Json.asNum : Json → Option Int
  | .num n => some n
  | _ => none

/-- Because `JSON.stringify` omits object keys whose value is `undefined`,
an optional field contributes a binding only when present. -/
def optField (k : String) : Option String → List (String × Json)
  | none => []
  | some s => [(k, Json.str s)]

/-- Serialization of one `FoodItem`, key for key as `JSON.stringify`
produces it from the object built in `saveItem` (`src/App.tsx`). -/
def encodeFoodItem (i : FoodItem) : Json :=
  Json.obj
    ([("id", Json.str i.id), ("name", Json.str i.name)] ++
     optField "nameEn" i.nameEn ++
     optField "nameZh" i.nameZh ++
     [("category", Json.str i.category.enumValue),
      ("purchaseDate", Json.str i.purchaseDate),
      ("remainingPercentage", Json.num i.remainingPercentage),
      ("emoji", Json.str i.emoji)] ++
     optField "productionDate" i.productionDate ++
     optField "expiryDate" i.expiryDate ++
     optField "weight" i.weight)

/-- The typed reading of a parsed item back into `FoodItem`, field by
field as the app accesses the reloaded objects. -/
def decodeFoodItem (j : Json) : Option FoodItem := do
  let id ← (j.getField "id").bind Json.asStr
  let name ← (j.getField "name").bind Json.asStr
  let category ← ((j.getField "category").bind Json.asStr).bind Category.ofEnumValue
  let purchaseDate ← (j.getField "purchaseDate").bind Json.asStr
  let remainingPercentage ← (j.getField "remainingPercentage").bind Json.asNum
  let emoji ← (j.getField "emoji").bind Json.asStr
  some { id := id, name := name
         nameEn := (j.getField "nameEn").bind Json.asStr
         nameZh := (j.getField "nameZh").bind Json.asStr
         category := category
         productionDate := (j.getField "productionDate").bind Json.asStr
         purchaseDate := purchaseDate
         expiryDate := (j.getField "expiryDate").bind Json.asStr
         weight := (j.getField "weight").bind Json.asStr
         remainingPercentage := remainingPercentage
         emoji := emoji }

/-- The serialized array written to the `fridgeItems` slot. -/
def encodeItems (items : List FoodItem) : Json :=
  Json.arr (items.map encodeFoodItem)

/-- Element-wise decoding of the persisted array; fails as a whole if
any element fails. -/
def decodeItemList : List Json → Option (List FoodItem)
  | [] => some []
  | j :: rest =>
    match decodeFoodItem j, decodeItemList rest with
    | some i, some t => some (i :: t)
    | _, _ => none

/-- Reading the slot array back as a `FoodItem` list. -/
def decodeItems : Json → Option (List FoodItem)
  | .arr js => decodeItemList js
  | _ => none

/-- The `View` union type from `src/App.tsx`. -/
inductive View where
  | fridge
  | add
  | shop
  | receiptReview
  | recipes
deriving DecidableEq, Repr

/-- Which user-visible message from the translation dictionary is shown
(`t.error`, `t.recipeFail`, `t.noRecipes` in `src/App.tsx`). -/
inductive TransKey where
  | errorMsg
  | recipeFail
  | noRecipes
deriving DecidableEq, Repr

/-- Structure `VideoLink` from `src/types.ts` (the platform union is kept as a
string). -/
structure VideoLink where
  title : String
  url : String
  platform : String
deriving DecidableEq, Repr

/-- Structure `Recipe` from `src/types.ts`. -/
structure Recipe where
  name : String
  description : String
  ingredientsUsed : List String
  missingIngredients : List String
  instructions : List String
  videoLinks : List VideoLink
  imageUrl : Option String
  imageLoading : Option Bool
deriving DecidableEq, Repr

/-- The application state the claims touch: the committed item list,
the `fridgeItems` local-storage slot it is mirrored to, the current
view, the error banner, and the recipe list. -/
structure AppState where
  items : List FoodItem
  storage : Option Json
  view : View
  error : Option TransKey
  recipes : List Recipe

/-- A `setItems` call together with the persistence effect
(`useEffect` at `src/App.tsx:177-179`): every items mutation
synchronously rewrites the slot with the serialized full collection. -/
def commitItems (st : AppState) (newItems : List FoodItem) : AppState :=
  { st with items := newItems, storage := some (encodeItems newItems) }

/-- Function `updateConsumption` from `src/App.tsx:303-309`, with the
persistence effect folded in. -/
def updateConsumption (st : AppState) (id : String) (newPercentage : Int) :
    AppState :=
  if newPercentage ≤ 0 then
    commitItems st (st.items.filter (fun i => !(i.id == id)))
  else
    commitItems st (st.items.map (fun i =>
      if i.id == id then { i with remainingPercentage := newPercentage }
      else i))

/-- Writing the inventory to the single `fridgeItems` slot. -/
def persistSlot (items : List FoodItem) : Option Json :=
  some (encodeItems items)

/-- The startup load (`useEffect` at `src/App.tsx:172-175`): an absent
slot leaves the seed alone, a present one is parsed and read back. -/
def loadSlot (slot : Option Json) : Option (List FoodItem) :=
  slot.bind decodeItems

/-- A second concrete item, kept by the counterexample updates. -/
def breadItem : FoodItem :=
  { id := "item-2"
    name := "Bread"
    nameEn := some "Bread"
    nameZh := some "面包"
    category := .other
    productionDate := none
    purchaseDate := "2026-10-02"
    expiryDate := some "2026-10-14"
    weight := some "500g"
    remainingPercentage := 75
    emoji := "📦" }

/-- A concrete two-item state used to instantiate the store theorems. -/
def demoState : AppState :=
  { items := [milkItem, breadItem]
    storage := some (encodeItems [milkItem, breadItem])
    view := View.fridge
    error := none
    recipes := [] }

/-- Function `getDaysUntilExpiry` from `src/App.tsx:311-315`.  The call
`differenceInDays(parseISO(dateStr), new Date())` — the calendar-day
difference of a date string from now — is abstracted as the parameter
`daysUntil`; `!dateStr` is JavaScript-falsy for a missing or empty
string. -/
def getDaysUntilExpiry (daysUntil : String → Int) (dateStr : Option String) :
    Option Int :=
  match dateStr with
  | none => none
  | some d => if d = "" then none else some (daysUntil d)

/-- The eligibility filter in `handleGetRecipes` (`src/App.tsx:323-327`):
`days !== null && days <= 3 && days >= 0`. -/
def expiringItems (daysUntil : String → Int) (items : List FoodItem) :
    List FoodItem :=
  items.filter (fun item =>
    match getDaysUntilExpiry daysUntil item.expiryDate with
    | none => false
    | some days => decide (days ≤ 3 ∧ 0 ≤ days))

/-- JavaScript `v || d` on an optional number: `null` and `0` are both
falsy and fall back to the default. -/
def jsOrNum (v : Option Int) (d : Int) : Int :=
  match v with
  | none => d
  | some n => if n = 0 then d else n

/-- The sort key of the comparator at `src/App.tsx:328-332`:
`getDaysUntilExpiry(x.expiryDate) || 999`. -/
def sortKey (daysUntil : String → Int) (item : FoodItem) : Int :=
  jsOrNum (getDaysUntilExpiry daysUntil item.expiryDate) 999

/-- Filter then sort, as `handleGetRecipes` builds its near-expiry
list.  The engine sort with comparator `da - db` is modelled by a
stable comparison sort on the key. -/
def sortedExpiringItems (daysUntil : String → Int) (items : List FoodItem) :
    List FoodItem :=
  (expiringItems daysUntil items).insertionSort
    (fun a b => sortKey daysUntil a ≤ sortKey daysUntil b)

/-- An item whose expiry date is exactly today (0 days out). -/
def eggItem : FoodItem :=
  { id := "item-3"
    name := "Eggs"
    nameEn := some "Eggs"
    nameZh := some "鸡蛋"
    category := .other
    productionDate := none
    purchaseDate := "2026-10-05"
    expiryDate := some "2026-10-11"
    weight := none
    remainingPercentage := 100
    emoji := "📦" }

/-- An item expiring two days from now. -/
def yogurtItem : FoodItem :=
  { id := "item-4"
    name := "Yogurt"
    nameEn := some "Yogurt"
    nameZh := some "酸奶"
    category := .dairy
    productionDate := none
    purchaseDate := "2026-10-06"
    expiryDate := some "2026-10-13"
    weight := none
    remainingPercentage := 100
    emoji := "🧀" }

/-- A concrete day counter: today is 2026-10-11. -/
def demoDaysUntil : String → Int :=
  fun d => if d = "2026-10-11" then 0 else 2

/-- The `Language` union type from `src/App.tsx`. -/
inductive Lang where
  | en
  | zh
deriving DecidableEq, Repr

/-- The localized display name: `nameZh || name` in Chinese mode and
`nameEn || name` in English mode, with JavaScript truthiness. -/
def localizedName (lang : Lang) (i : FoodItem) : String :=
  match lang with
  | .zh => jsOrStr i.nameZh i.name
  | .en => jsOrStr i.nameEn i.name

/-- The ingredient list `handleGetRecipes` builds
(`src/App.tsx:335-341`): localized names of the sorted near-expiry
items, padded with up to three other inventory names when fewer than
two qualify. -/
def recipeIngredients (daysUntil : String → Int) (lang : Lang)
    (items : List FoodItem) : List String :=
  let ingredients0 :=
    (sortedExpiringItems daysUntil items).map (localizedName lang)
  if ingredients0.length < 2 then
    ingredients0 ++
      ((items.filter (fun i =>
          !(ingredients0.contains (localizedName lang i)))).take 3).map
        (localizedName lang)
  else ingredients0

/-- Function `handleGetRecipes` from `src/App.tsx:317-375`, given the outcome of
the `suggestRecipes` call: `Except.error` models a thrown failure
(transport error or `JSON.parse` rejecting the response), `Except.ok`
a parsed recipe array of any length (an empty response text yields
`ok []`, since `suggestRecipes` returns `[]` for it).  The function
first switches to the recipes view and clears the recipe list, bails
out to the fridge with the no-recipes message when the ingredient list
is empty, returns to the fridge with the recipe-failure message when
the call throws, and otherwise installs the parsed recipes, marking
images without a discovered URL as loading. -/
def handleGetRecipes (st : AppState) (daysUntil : String → Int)
    (lang : Lang) (callResult : Except Unit (List Recipe)) : AppState :=
  let st0 := { st with view := View.recipes, recipes := [] }
  let ingredients := recipeIngredients daysUntil lang st.items
  if ingredients.isEmpty then
    { st0 with error := some TransKey.noRecipes, view := View.fridge }
  else
    match callResult with
    | .error _ =>
      { st0 with error := some TransKey.recipeFail, view := View.fridge }
    | .ok suggested =>
      { st0 with recipes := suggested.map (fun r =>
          { r with imageLoading := some (!jsTruthy r.imageUrl) }) }

/-- The staging record `Partial FoodItem` under user edit before
commit (`stagedItem` state in `src/App.tsx`). -/
structure StagedItem where
  name : Option String
  nameEn : Option String
  nameZh : Option String
  category : Option Category
  productionDate : Option String
  purchaseDate : Option String
  expiryDate : Option String
  weight : Option String
deriving DecidableEq, Repr

/-- One candidate line of `ReceiptData` from `src/types.ts`. -/
structure ReceiptLine where
  nameEn : String
  nameZh : String
  category : Category
  quantity : Option String
deriving DecidableEq, Repr

/-- Structure `ReceiptData` from `src/types.ts`. -/
structure ReceiptData where
  date : Option String
  items : List ReceiptLine
deriving DecidableEq, Repr

/-- Function `saveItem` from `src/App.tsx:256-276`: guarded by JavaScript
truthiness of `stagedItem`, its names and category, it commits a new
item with a fresh id (`uuid`), remaining percentage 100, the emoji
derived from the category, and the weight recombined from the two
input fields. -/
def saveItem (st : AppState) (staged : Option StagedItem)
    (weightInput unitInput uuid today : String) : AppState :=
  match staged with
  | none => st
  | some s =>
    match s.nameEn, s.nameZh, s.category with
    | some nEn, some nZh, some cat =>
      if nEn = "" ∨ nZh = "" then st
      else
        let finalWeight :=
          if weightInput = "" then none else some (weightInput ++ unitInput)
        let newItem : FoodItem :=
          { id := uuid
            name := nEn
            nameEn := some nEn
            nameZh := some nZh
            category := cat
            purchaseDate := jsOrStr s.purchaseDate today
            remainingPercentage := 100
            emoji := getCategoryEmoji cat
            productionDate := s.productionDate
            expiryDate := s.expiryDate
            weight := finalWeight }
        { commitItems st (st.items ++ [newItem]) with view := View.fridge }
    | _, _, _ => st

/-- Function `saveReceiptItems` from `src/App.tsx:278-301`: each remaining
receipt line becomes a new item at remaining percentage 100, purchase
date from the receipt (or today), expiry date computed by
`addDays(parseISO(purchaseDate), defaultShelfLife)` — abstracted as
`addDaysStr` — and a fresh id per line (`uuidAt`). -/
def saveReceiptItems (st : AppState) (rd : Option ReceiptData)
    (defaultShelfLife : Int) (uuidAt : Nat → String) (today : String)
    (addDaysStr : String → Int → String) : AppState :=
  match rd with
  | none => st
  | some r =>
    let newItems := r.items.enum.map (fun p =>
      let purchaseDate := jsOrStr r.date today
      ({ id := uuidAt p.1
         name := p.2.nameEn
         nameEn := some p.2.nameEn
         nameZh := some p.2.nameZh
         category := p.2.category
         purchaseDate := purchaseDate
         productionDate := none
         expiryDate := some (addDaysStr purchaseDate defaultShelfLife)
         weight := p.2.quantity
         remainingPercentage := 100
         emoji := getCategoryEmoji p.2.category } : FoodItem))
    { commitItems st (st.items ++ newItems) with view := View.fridge }

/-- The public store mutations: commit of a confirmed scan, bulk
commit of receipt lines, and a consumption update. -/
inductive Op where
  | scanSave (staged : Option StagedItem)
      (weightInput unitInput uuid today : String)
  | receiptSave (rd : Option ReceiptData) (shelfLife : Int)
      (uuidAt : Nat → String) (today : String)
      (addDaysStr : String → Int → String)
  | consume (id : String) (pct : Int)

/-- Dispatch of one public operation on the application state. -/
def applyOp (st : AppState) : Op → AppState
  | .scanSave s w u uu td => saveItem st s w u uu td
  | .receiptSave rd sh ua td ad => saveReceiptItems st rd sh ua td ad
  | .consume id pct => updateConsumption st id pct

/-- The state after startup with an empty storage slot: no items, and
the persistence effect has mirrored the empty collection. -/
def initialState : AppState :=
  { items := []
    storage := some (encodeItems [])
    view := View.fridge
    error := none
    recipes := [] }

/-- States reachable from startup by the public store operations. -/
inductive Reachable : AppState → Prop where
  | init : Reachable initialState
  | step {st : AppState} (op : Op) :
      Reachable st → Reachable (applyOp st op)

/-- The staged scan used to instantiate the store invariant. -/
def demoStaged : StagedItem :=
  { name := some "Eggs"
    nameEn := some "Eggs"
    nameZh := some "鸡蛋"
    category := some .other
    productionDate := none
    purchaseDate := some "2026-10-11"
    expiryDate := none
    weight := none }

/-- The item that committing `demoStaged` produces. -/
def scannedEgg : FoodItem :=
  { id := "uuid-1"
    name := "Eggs"
    nameEn := some "Eggs"
    nameZh := some "鸡蛋"
    category := .other
    purchaseDate := "2026-10-11"
    remainingPercentage := 100
    emoji := "📦"
    productionDate := none
    expiryDate := none
    weight := none }

/-- Lifecycle phase of the capture overlay
(`src/components/Camera.tsx`): `running` while mounted and
interactive, `finished` after a successful finish handed images to the
caller, `closed` after the close button, `unmounted` after React
teardown ran the `useEffect` cleanup. -/
inductive CamPhase where
  | running
  | finished
  | closed
  | unmounted
deriving DecidableEq, Repr

/-- State of the capture overlay.  `streamActive` is the hardware
resource: an acquired `MediaStream` whose tracks have not been
stopped.  `streamState` is the React `stream` state of the current
render — what the `stopCamera` invoked by the finish and close buttons
closes over; the two differ while a `getUserMedia` call is in flight
or after its `setStream` write was discarded.  The rest is the
accumulated captured frames, the lifecycle phase, and the images
handed to `onCapture` (if any). -/
structure CamState where
  streamActive : Bool
  streamState : Bool
  capturedImages : List String
  phase : CamPhase
  emitted : Option (List String)
deriving DecidableEq, Repr

/-- The user and platform events the overlay reacts to.
`startSuccess` is the resolution of a pending `getUserMedia` call; it
can arrive after the overlay has already exited. -/
inductive CamEvent where
  | startSuccess
  | startFailure
  | captureFrame (img : String)
  | removeImage (idx : Nat)
  | finishClick
  | closeClick
  | teardown
deriving Repr

/-- One step of the overlay, from `src/components/Camera.tsx`:
a resolving `startCamera` call acquires the hardware stream and, if
the component is still mounted, stores it in the `stream` state
(`setStream` on an unmounted component is discarded, leaving the
acquired stream with no release path); a failed acquisition leaves
state alone; `captureFrame` appends a frame; the thumbnail delete
button filters one index out; `handleFinish` is guarded by
`capturedImages.length > 0` and on success runs the current render
`stopCamera` — which stops the tracks only if the `stream` state is
set — before `onCapture`; the close button runs the same `stopCamera`
then `onClose`.  The `useEffect` cleanup at teardown invokes the
mount-render `stopCamera`, whose captured `stream` is still `null`
(the effect has empty deps, with the exhaustive-deps lint suppressed),
so the real teardown stops nothing.  After the overlay left the
`running` phase the component is gone and only the teardown cleanup
and late acquisition resolutions can still happen. -/
def camStep (st : CamState) (e : CamEvent) : CamState :=
  if st.phase ≠ CamPhase.running then
    match e with
    | .startSuccess => { st with streamActive := true }
    | .teardown => { st with phase := .unmounted }
    | _ => st
  else
    match e with
    | .startSuccess => { st with streamActive := true, streamState := true }
    | .startFailure => st
    | .captureFrame img =>
      { st with capturedImages := st.capturedImages ++ [img] }
    | .removeImage idx =>
      { st with capturedImages :=
          ((st.capturedImages.enum.filter
            (fun p => !(p.1 == idx))).map (fun p => p.2)) }
    | .finishClick =>
      if st.capturedImages.isEmpty then st
      else { st with
               streamActive := if st.streamState then false else st.streamActive,
               streamState := false,
               phase := .finished,
               emitted := some st.capturedImages }
    | .closeClick =>
      { st with
          streamActive := if st.streamState then false else st.streamActive,
          streamState := false,
          phase := .closed }
    | .teardown => { st with phase := .unmounted }

/-- The overlay right after mount: no stream yet, no frames. -/
def camInit : CamState :=
  { streamActive := false
    streamState := false
    capturedImages := []
    phase := .running
    emitted := none }

/-- Overlay states reachable within one capture session. -/
inductive CamReachable : CamState → Prop where
  | init : CamReachable camInit
  | step {st : CamState} (e : CamEvent) :
      CamReachable st → CamReachable (camStep st e)

/-- The overlay state after the stream is acquired and React then
tears the component down without a finish or close click. -/
def leakAfterTeardown : CamState :=
  camStep (camStep camInit CamEvent.startSuccess) CamEvent.teardown

/-- The overlay state after the user closes while acquisition is still
pending and the `getUserMedia` call resolves only after teardown. -/
def leakAfterLateResolve : CamState :=
  camStep (camStep (camStep camInit CamEvent.closeClick) CamEvent.teardown)
    CamEvent.startSuccess

theorem Category.ofEnumValue_enumValue (c : Category) :
    Category.ofEnumValue c.enumValue = some c := by
  cases c <;> rfl

theorem decodeFoodItem_encodeFoodItem (i : FoodItem) :
    decodeFoodItem (encodeFoodItem i) = some i := by
  obtain ⟨id, name, nameEn, nameZh, category, productionDate,
    purchaseDate, expiryDate, weight, remainingPercentage, emoji⟩ := i
  cases nameEn <;> cases nameZh <;> cases productionDate <;>
    cases expiryDate <;> cases weight <;>
    simp [decodeFoodItem, encodeFoodItem, optField, Json.getField,
      List.find?, Json.asStr, Json.asNum, Category.ofEnumValue_enumValue]

theorem decodeItems_encodeItems (items : List FoodItem) :
    decodeItems (encodeItems items) = some items := by
  unfold decodeItems encodeItems
  induction items with
  | nil => rfl
  | cons a t ih =>
    simp only [List.map_cons, decodeItemList, decodeFoodItem_encodeFoodItem]
    simp only [List.map] at ih ⊢
    rw [ih]

theorem saveItem_mem (st : AppState) (s : Option StagedItem)
    (w u uu td : String) (i : FoodItem)
    (h : i ∈ (saveItem st s w u uu td).items) :
    i ∈ st.items ∨ i.remainingPercentage = 100 := by
  unfold saveItem at h
  split at h
  · exact Or.inl h
  · split at h
    · split at h
      · exact Or.inl h
      · simp only [commitItems, List.mem_append] at h
        rcases h with h | h
        · exact Or.inl h
        · right
          simp only [List.mem_singleton] at h
          rw [h]
    · exact Or.inl h

theorem saveReceiptItems_mem (st : AppState) (rd : Option ReceiptData)
    (sh : Int) (ua : Nat → String) (td : String)
    (ad : String → Int → String) (i : FoodItem)
    (h : i ∈ (saveReceiptItems st rd sh ua td ad).items) :
    i ∈ st.items ∨ i.remainingPercentage = 100 := by
  unfold saveReceiptItems at h
  cases rd with
  | none => exact Or.inl h
  | some r =>
    simp only [commitItems, List.mem_append] at h
    rcases h with h | h
    · exact Or.inl h
    · right
      simp only [List.mem_map] at h
      obtain ⟨p, _, hp⟩ := h
      rw [← hp]

theorem camReachable_inv (st : CamState) (h : CamReachable st) :
    ∀ imgs, st.emitted = some imgs → imgs ≠ [] := by
  induction h with
  | init => exact fun _ h => by cases h
  | @step st' e _ ih =>
    unfold camStep
    by_cases hrun : st'.phase ≠ CamPhase.running
    · rw [if_pos hrun]
      cases e with
      | teardown => exact ih
      | startSuccess => exact ih
      | startFailure => exact ih
      | captureFrame img => exact ih
      | removeImage idx => exact ih
      | finishClick => exact ih
      | closeClick => exact ih
    · rw [if_neg hrun]
      cases e with
      | startSuccess => exact ih
      | startFailure => exact ih
      | captureFrame img => exact ih
      | removeImage idx => exact ih
      | finishClick =>
        by_cases hemp : st'.capturedImages.isEmpty
        · rw [if_pos hemp]
          exact ih
        · rw [if_neg hemp]
          intro imgs himgs
          simp only [Option.some.injEq] at himgs
          rw [← himgs]
          intro hnil
          rw [hnil] at hemp
          exact hemp rfl
      | closeClick => exact ih
      | teardown => exact ih

/-- Claim C1, counterexample: the existing item name Milk is a
case-insensitive substring of the scanned name organic milk, yet the
matcher reports no match — containment is checked only in the
scanned-in-existing direction, so the claimed symmetry fails. -/
theorem findDuplicate_not_symmetric :
    jsIncludes (jsToLower "organic milk") (jsToLower "Milk") = true ∧
    findDuplicate [milkItem] "organic milk" "有机牛奶" = none := by
  constructor
  · decide
  · decide

/-- Claim C1, amended: the duplicate matcher is case-insensitive but
one-directional.  A match is reported exactly when some inventory item
has a populated (nonempty) English name that contains the scanned
English name, or a populated Chinese name that contains the scanned
Chinese name, or a primary name that contains the scanned English name
— all after lowercasing both sides; the first such item wins. -/
theorem findDuplicate_isSome_iff (items : List FoodItem)
    (scanEn scanZh : String) :
    (findDuplicate items scanEn scanZh).isSome ↔
      ∃ item, item ∈ items ∧
        ((∃ n, item.nameEn = some n ∧ n ≠ "" ∧
            (jsToLower scanEn).data <:+: (jsToLower n).data) ∨
         (∃ n, item.nameZh = some n ∧ n ≠ "" ∧
            (jsToLower scanZh).data <:+: (jsToLower n).data) ∨
         (jsToLower scanEn).data <:+: (jsToLower item.name).data) := by
  unfold findDuplicate
  rw [List.find?_isSome]
  constructor
  · rintro ⟨item, hmem, hp⟩
    refine ⟨item, hmem, ?_⟩
    simp only [Bool.or_eq_true] at hp
    rcases hp with (h | h) | h
    · left
      unfold nameFieldHit at h
      cases hEn : item.nameEn with
      | none => rw [hEn] at h; exact absurd h (by simp)
      | some n =>
        rw [hEn] at h
        simp only [Bool.and_eq_true] at h
        refine ⟨n, rfl, ?_, ?_⟩
        · intro heq
          rw [heq] at h
          exact absurd h.1 (by simp)
        · have := h.2
          unfold jsIncludes at this
          exact of_decide_eq_true this
    · right; left
      unfold nameFieldHit at h
      cases hZh : item.nameZh with
      | none => rw [hZh] at h; exact absurd h (by simp)
      | some n =>
        rw [hZh] at h
        simp only [Bool.and_eq_true] at h
        refine ⟨n, rfl, ?_, ?_⟩
        · intro heq
          rw [heq] at h
          exact absurd h.1 (by simp)
        · have := h.2
          unfold jsIncludes at this
          exact of_decide_eq_true this
    · right; right
      unfold jsIncludes at h
      exact of_decide_eq_true h
  · rintro ⟨item, hmem, hp⟩
    refine ⟨item, hmem, ?_⟩
    simp only [Bool.or_eq_true]
    rcases hp with ⟨n, hEn, hne, hinf⟩ | ⟨n, hZh, hne, hinf⟩ | hinf
    · left; left
      unfold nameFieldHit
      rw [hEn]
      simp only [Bool.and_eq_true]
      constructor
      · simpa using hne
      · unfold jsIncludes
        exact decide_eq_true hinf
    · left; right
      unfold nameFieldHit
      rw [hZh]
      simp only [Bool.and_eq_true]
      constructor
      · simpa using hne
      · unfold jsIncludes
        exact decide_eq_true hinf
    · right
      unfold jsIncludes
      exact decide_eq_true hinf

/-- Claim C2: a consumption update with percentage at most 0 on an id
present in the store removes every item carrying that id from the
in-memory list, keeps all other items (in order), and the persisted
slot is rewritten to exactly the new list, so the removed item is gone
from storage as well. -/
theorem updateConsumption_nonpos_removes (st : AppState) (id : String)
    (p : Int) (hp : p ≤ 0) (hmem : ∃ i, i ∈ st.items ∧ i.id = id) :
    (updateConsumption st id p).items
        = st.items.filter (fun i => decide (i.id ≠ id)) ∧
    (∀ i ∈ (updateConsumption st id p).items, i.id ≠ id) ∧
    (∀ i ∈ st.items, i.id ≠ id → i ∈ (updateConsumption st id p).items) ∧
    (updateConsumption st id p).storage
        = persistSlot (updateConsumption st id p).items ∧
    loadSlot ((updateConsumption st id p).storage)
        = some (updateConsumption st id p).items := by
  have hcond : ∀ i : FoodItem, (!(i.id == id)) = decide (i.id ≠ id) := by
    intro i
    by_cases h : i.id = id <;> simp [h]
  have hitems : (updateConsumption st id p).items
      = st.items.filter (fun i => decide (i.id ≠ id)) := by
    unfold updateConsumption commitItems
    rw [if_pos hp]
    simp only []
    exact List.filter_congr (fun i _ => hcond i)
  refine ⟨hitems, ?_, ?_, ?_, ?_⟩
  · intro i hi
    rw [hitems] at hi
    have := List.of_mem_filter hi
    simpa using this
  · intro i hi hne
    rw [hitems]
    exact List.mem_filter.mpr ⟨hi, by simpa using hne⟩
  · unfold updateConsumption commitItems persistSlot
    rw [if_pos hp]
  · unfold updateConsumption commitItems
    rw [if_pos hp]
    simp only []
    unfold loadSlot
    simp [Option.bind, decodeItems_encodeItems]

/-- Witness for claim C2 at a concrete input: consuming item-1 down to
0 leaves exactly the other item. -/
theorem updateConsumption_nonpos_removes_witness :
    (updateConsumption demoState "item-1" 0).items
      = demoState.items.filter (fun i => decide (i.id ≠ "item-1")) := by
  exact (updateConsumption_nonpos_removes demoState "item-1" 0 (by decide)
    ⟨milkItem, by simp [demoState], rfl⟩).1

/-- Claim C3: a consumption update with percentage in (0, 100] maps the
list pointwise — every position whose item carries the target id gets
remaining percentage exactly `p` with all ten other fields unchanged,
and every other position is untouched. -/
theorem updateConsumption_pos_updates (st : AppState) (id : String)
    (p : Int) (h0 : 0 < p) (h100 : p ≤ 100)
    (hmem : ∃ i, i ∈ st.items ∧ i.id = id) :
    List.Forall₂ (fun old new =>
      (old.id = id →
        new.remainingPercentage = p ∧ new.id = old.id ∧
        new.name = old.name ∧ new.nameEn = old.nameEn ∧
        new.nameZh = old.nameZh ∧ new.category = old.category ∧
        new.productionDate = old.productionDate ∧
        new.purchaseDate = old.purchaseDate ∧
        new.expiryDate = old.expiryDate ∧ new.weight = old.weight ∧
        new.emoji = old.emoji) ∧
      (old.id ≠ id → new = old))
      st.items (updateConsumption st id p).items := by
  have hitems : (updateConsumption st id p).items
      = st.items.map (fun i =>
          if i.id == id then { i with remainingPercentage := p } else i) := by
    unfold updateConsumption commitItems
    rw [if_neg (by omega)]
  rw [hitems, List.forall₂_map_right_iff, List.forall₂_same]
  intro x _
  by_cases h : x.id = id
  · simp [h]
  · simp [h]

/-- Witness for claim C3 at a concrete input: updating item-1 to 50
percent touches only that field of that item. -/
theorem updateConsumption_pos_updates_witness :
    List.Forall₂ (fun old new =>
      (old.id = "item-1" →
        new.remainingPercentage = 50 ∧ new.id = old.id ∧
        new.name = old.name ∧ new.nameEn = old.nameEn ∧
        new.nameZh = old.nameZh ∧ new.category = old.category ∧
        new.productionDate = old.productionDate ∧
        new.purchaseDate = old.purchaseDate ∧
        new.expiryDate = old.expiryDate ∧ new.weight = old.weight ∧
        new.emoji = old.emoji) ∧
      (old.id ≠ "item-1" → new = old))
      demoState.items (updateConsumption demoState "item-1" 50).items := by
  exact updateConsumption_pos_updates demoState "item-1" 50 (by decide)
    (by decide) ⟨milkItem, by simp [demoState], rfl⟩

/-- Claim C4: the near-expiry selection contains exactly the inventory
items having an expiry date whose calendar-day difference from now is
between 0 and 3 inclusive — so 3 days out is in, 4 days out is out,
already-expired (negative) is out, and no expiry date is out. -/
theorem sortedExpiringItems_mem_iff (daysUntil : String → Int)
    (items : List FoodItem) (i : FoodItem) :
    i ∈ sortedExpiringItems daysUntil items ↔
      (i ∈ items ∧ ∃ d, i.expiryDate = some d ∧ d ≠ "" ∧
        0 ≤ daysUntil d ∧ daysUntil d ≤ 3) := by
  unfold sortedExpiringItems
  rw [List.mem_insertionSort]
  unfold expiringItems
  rw [List.mem_filter]
  constructor
  · rintro ⟨hmem, hcond⟩
    refine ⟨hmem, ?_⟩
    cases hexp : i.expiryDate with
    | none => simp [getDaysUntilExpiry, hexp] at hcond
    | some d =>
      by_cases hd : d = ""
      · simp [getDaysUntilExpiry, hexp, hd] at hcond
      · simp [getDaysUntilExpiry, hexp, hd] at hcond
        exact ⟨d, rfl, hd, hcond.2, hcond.1⟩
  · rintro ⟨hmem, d, hexp, hd, h0, h3⟩
    refine ⟨hmem, ?_⟩
    simp [getDaysUntilExpiry, hexp, hd, h0, h3]

/-- Claim C5, failing input: the comparator computes its keys with
`getDaysUntilExpiry(...) || 999`, and `0` is JavaScript-falsy, so an
item expiring today gets key 999 and is sorted after an item expiring
in two days — the selected list is not ascending by days remaining. -/
theorem recipeSort_puts_zeroDay_last :
    sortedExpiringItems demoDaysUntil [eggItem, yogurtItem]
      = [yogurtItem, eggItem] := by
  decide

/-- Claim C6, counterexample: with a nonempty ingredient list, a
response that parses to an empty recipe array — fewer than 3 recipes —
leaves the flow on the recipes view with no error banner; no
recipe-count or schema check exists, so the claimed failure handling
does not happen. -/
theorem recipes_short_response_no_error :
    (handleGetRecipes demoState (fun _ => 2) Lang.en (Except.ok [])).view
        = View.recipes ∧
    (handleGetRecipes demoState (fun _ => 2) Lang.en (Except.ok [])).error
        = none ∧
    (handleGetRecipes demoState (fun _ => 2) Lang.en (Except.ok [])).items
        = demoState.items := by
  refine ⟨by decide, by decide, by decide⟩

/-- Claim C6, amended: the committed store (items and persisted slot)
is never mutated by the recipe flow; when the ingredient list is
nonempty, a recipe call that throws (unparseable response or transport
failure) surfaces the recipe-failure message and returns to the
inventory view, while any response that parses — of any length,
including fewer than 3 recipes — is shown on the recipes view with no
new error. -/
theorem handleGetRecipes_spec (st : AppState) (daysUntil : String → Int)
    (lang : Lang) (res : Except Unit (List Recipe)) :
    ((handleGetRecipes st daysUntil lang res).items = st.items ∧
     (handleGetRecipes st daysUntil lang res).storage = st.storage) ∧
    (recipeIngredients daysUntil lang st.items ≠ [] →
      ∀ e, res = Except.error e →
        (handleGetRecipes st daysUntil lang res).view = View.fridge ∧
        (handleGetRecipes st daysUntil lang res).error
          = some TransKey.recipeFail) ∧
    (recipeIngredients daysUntil lang st.items ≠ [] →
      ∀ rs, res = Except.ok rs →
        (handleGetRecipes st daysUntil lang res).view = View.recipes ∧
        (handleGetRecipes st daysUntil lang res).error = st.error) := by
  unfold handleGetRecipes
  by_cases hing : (recipeIngredients daysUntil lang st.items).isEmpty
  · rw [if_pos hing]
    refine ⟨⟨rfl, rfl⟩, ?_, ?_⟩
    · intro hne
      exact absurd (List.isEmpty_iff.mp hing) hne
    · intro hne
      exact absurd (List.isEmpty_iff.mp hing) hne
  · rw [if_neg hing]
    cases res with
    | error e => exact ⟨⟨rfl, rfl⟩, fun _ _ _ => ⟨rfl, rfl⟩,
        fun _ rs h => absurd h (by simp)⟩
    | ok rs => exact ⟨⟨rfl, rfl⟩, fun _ e h => absurd h (by simp),
        fun _ _ _ => ⟨rfl, rfl⟩⟩

/-- Witness for claim C6 at a concrete input: a throwing recipe call on
a nonempty ingredient list lands back on the fridge view with the
recipe-failure message. -/
theorem handleGetRecipes_spec_witness :
    (handleGetRecipes demoState (fun _ => 2) Lang.en
        (Except.error ())).view = View.fridge ∧
    (handleGetRecipes demoState (fun _ => 2) Lang.en
        (Except.error ())).error = some TransKey.recipeFail := by
  exact (handleGetRecipes_spec demoState (fun _ => 2) Lang.en
    (Except.error ())).2.1 (by decide) () rfl

/-- Claim C7: persisting any inventory to the slot and reloading it at
startup yields the identical collection, order and all field values
preserved. -/
theorem persist_load_roundTrip (items : List FoodItem) :
    loadSlot (persistSlot items) = some items := by
  unfold loadSlot persistSlot
  simp [Option.bind, decodeItems_encodeItems]

/-- Claim C8: in every state reachable from startup by the public
operations no committed item has remaining percentage 0 or below, and
every item a commit operation adds (confirmed scan or receipt line)
starts at remaining percentage 100; a consumption update to 0 removes
its item instead of storing a zero. -/
theorem store_positive_invariant :
    (∀ st, Reachable st → ∀ i ∈ st.items, 0 < i.remainingPercentage) ∧
    (∀ st s w u uu td, ∀ i ∈ (saveItem st s w u uu td).items,
      i ∈ st.items ∨ i.remainingPercentage = 100) ∧
    (∀ st rd sh ua td ad,
      ∀ i ∈ (saveReceiptItems st rd sh ua td ad).items,
      i ∈ st.items ∨ i.remainingPercentage = 100) := by
  refine ⟨?_, ?_, ?_⟩
  · intro st hreach
    induction hreach with
    | init => intro i hi; exact absurd hi (by simp [initialState])
    | @step st' op hre ih =>
      intro i hi
      cases op with
      | scanSave s w u uu td =>
        rcases saveItem_mem st' s w u uu td i hi with h | h
        · exact ih i h
        · rw [h]; decide
      | receiptSave rd sh ua td ad =>
        rcases saveReceiptItems_mem st' rd sh ua td ad i hi with h | h
        · exact ih i h
        · rw [h]; decide
      | consume id pct =>
        simp only [applyOp] at hi
        unfold updateConsumption at hi
        by_cases hp : pct ≤ 0
        · rw [if_pos hp] at hi
          simp only [commitItems] at hi
          exact ih i (List.mem_of_mem_filter hi)
        · rw [if_neg hp] at hi
          simp only [commitItems, List.mem_map] at hi
          obtain ⟨j, hj, hji⟩ := hi
          by_cases hid : (j.id == id) = true
          · rw [if_pos hid] at hji
            rw [← hji]
            show (0 : Int) < pct
            omega
          · rw [if_neg hid] at hji
            rw [← hji]
            exact ih j hj
  · intro st s w u uu td i hi
    exact saveItem_mem st s w u uu td i hi
  · intro st rd sh ua td ad i hi
    exact saveReceiptItems_mem st rd sh ua td ad i hi

/-- Witness for claim C8 at a concrete input: after committing one
scanned item from the initial state, the committed item has a strictly
positive remaining percentage. -/
theorem store_positive_invariant_witness :
    (0 : Int) < scannedEgg.remainingPercentage := by
  exact store_positive_invariant.1
    (applyOp initialState
      (Op.scanSave (some demoStaged) "" "g" "uuid-1" "2026-10-11"))
    (Reachable.step _ Reachable.init) scannedEgg (by decide)

/-- Claim C9, failing inputs: the teardown exit path does not release
the stream.  The `useEffect` cleanup invokes the mount-render
`stopCamera`, whose captured `stream` state is still `null`, so
tearing the component down after the stream was acquired leaves the
stream active in a terminal state; likewise a `getUserMedia`
resolution arriving after a close-while-pending and teardown activates
the camera with no release path.  Both overlay traces are reachable
and end in a terminal (unmounted) state with an active stream,
refuting the claim that every terminal state has the stream stopped. -/
theorem teardown_does_not_release_stream :
    (CamReachable leakAfterTeardown ∧
     leakAfterTeardown.phase = CamPhase.unmounted ∧
     leakAfterTeardown.streamActive = true) ∧
    (CamReachable leakAfterLateResolve ∧
     leakAfterLateResolve.phase = CamPhase.unmounted ∧
     leakAfterLateResolve.streamActive = true) := by
  refine ⟨⟨?_, by decide, by decide⟩, ⟨?_, by decide, by decide⟩⟩
  · exact CamReachable.step _ (CamReachable.step _ CamReachable.init)
  · exact CamReachable.step _
      (CamReachable.step _ (CamReachable.step _ CamReachable.init))

/-- Claim C10: the finish action is a no-op while no frame has been
captured — the state (open camera included) is unchanged and nothing
is emitted — and whenever the overlay has handed images to the caller,
that image list is nonempty. -/
theorem finish_requires_captured_images :
    (∀ st : CamState, st.phase = CamPhase.running →
      st.capturedImages = [] → camStep st CamEvent.finishClick = st) ∧
    (∀ st : CamState, CamReachable st →
      ∀ imgs, st.emitted = some imgs → imgs ≠ []) := by
  constructor
  · intro st hrun hemp
    unfold camStep
    rw [if_neg (by simp [hrun])]
    simp [hemp]
  · intro st h
    exact camReachable_inv st h

/-- Witness for claim C10 at a concrete input: clicking finish with an
open stream and no captured frames changes nothing. -/
theorem finish_requires_captured_images_witness :
    camStep
        { streamActive := true, streamState := true, capturedImages := [],
          phase := CamPhase.running, emitted := none }
        CamEvent.finishClick
      = { streamActive := true, streamState := true, capturedImages := [],
          phase := CamPhase.running, emitted := none } := by
  exact finish_requires_captured_images.1 _ rfl rfl

end Fridge
